import Mathlib

/-!
Verification development for the qip repository.

The definitions in the `Qip` namespace are a shallow embedding of the two core
modules of the repository:

* `qip/definition.py` — the variant reconciler (`_update_variants`,
  `_compare_variants`, `_process_requirements`, `update`);
* `qip/__init__.py` — the installation orchestrator (`install`,
  `copy_to_destination`, `_confirm_overwrite`).

Python dictionaries become structures, the mutable variant list becomes a
returned list, and the orchestrator's while-loop becomes a fuel-indexed step
function over an explicit loop state.  External collaborators (pip, wiz, the
filesystem, the operator prompt) are modelled as explicit parameters: the
installer is an oracle function, the destination tree is the set of existing
target directories, and the operator is a stream of answers.
-/

namespace Qip

/-- The namespace constant `NAMESPACE = "library"` from `qip/definition.py`. -/
def NAMESPACE : String := "library"

/-! ### Python float literals and string comparison

`_compare_variants` calls `float()` on variant identifiers and falls back to
Python string comparison.  We model a `float()` value exactly as the rational
`num / 10 ^ shift` denoted by a decimal literal, and Python string order as
lexicographic order on code points.  The model covers decimal literals with an
optional sign, integer part and fractional part; exotic float syntax accepted
by Python (`inf`, `nan`, exponents, surrounding whitespace) is outside the
identifier alphabet considered and is treated as non-numeric. -/

/-- Exact value of a decimal literal: `num / 10 ^ shift`. -/
structure PyFloat where
  num : Int
  shift : Nat
  deriving DecidableEq, Repr

/-- The rational value denoted by a parsed literal. -/
def PyFloat.val (f : PyFloat) : Rat := (f.num : Rat) / (10 : Rat) ^ f.shift

/-- Equality of denoted values, by cross multiplication (executable). -/
def pyValEq (f g : PyFloat) : Bool := f.num * 10 ^ g.shift == g.num * 10 ^ f.shift

/-- Strict order on denoted values, by cross multiplication (executable). -/
def pyValLt (f g : PyFloat) : Bool := f.num * 10 ^ g.shift < g.num * 10 ^ f.shift

/-- Numeric value of a digit string (digits already validated). -/
def natOfDigits (l : List Char) : Nat := l.foldl (fun a c => 10 * a + (c.toNat - 48)) 0

/-- Parse an unsigned decimal literal: digits with at most one dot, and at
least one digit overall (`"3"`, `"3.9"`, `"3."`, `".5"`). -/
def parseDecimal (ds : List Char) : Option PyFloat :=
  let intp := ds.takeWhile (fun c => c ≠ '.')
  let rest := ds.dropWhile (fun c => c ≠ '.')
  match rest with
  | [] =>
      if intp.isEmpty then none
      else if intp.all Char.isDigit then some ⟨natOfDigits intp, 0⟩
      else none
  | _ :: frac =>
      if frac.contains '.' then none
      else if intp.isEmpty && frac.isEmpty then none
      else if intp.all Char.isDigit && frac.all Char.isDigit then
        some ⟨natOfDigits intp * 10 ^ frac.length + natOfDigits frac, frac.length⟩
      else none

/-- Model of Python `float(s)` on identifier strings: an optional sign
followed by an unsigned decimal literal. -/
def pyFloat? (s : String) : Option PyFloat :=
  match s.data with
  | '-' :: r => (parseDecimal r).map (fun f => ⟨-f.num, f.shift⟩)
  | '+' :: r => parseDecimal r
  | r => parseDecimal r

/-- Python string `<` restricted to the characters of two identifiers:
lexicographic comparison of code points (executable and kernel-reducible). -/
def charsLt : List Char → List Char → Bool
  | [], [] => false
  | [], _ :: _ => true
  | _ :: _, [] => false
  | a :: as, b :: bs =>
      if a < b then true
      else if a = b then charsLt as bs
      else false

/-- Python `s1 < s2` on strings. -/
def pyStrLt (s t : String) : Bool := charsLt s.data t.data

/-- Shallow embedding of `qip.definition._compare_variants` (the `VersionKey`
comparator), applied to the two identifier strings (the source reads only the
`"identifier"` key of each variant mapping).  The source negates both parsed
floats and compares the negations; since `-x = -y ↔ x = y` and
`-x < -y ↔ y < x`, the negated comparisons are rendered by swapping the
operands of `pyValLt`. -/
def _compare_variants (identifier1 identifier2 : String) : Int :=
  match pyFloat? identifier1, pyFloat? identifier2 with
  | some f1, some f2 =>
      if pyValEq f1 f2 then 0
      else if pyValLt f2 f1 then -1
      else 1
  | some _, none => -1
  | none, some _ => 1
  | none, none =>
      if identifier1 = identifier2 then 0
      else if pyStrLt identifier1 identifier2 then -1
      else 1

example : _compare_variants "3.9" "2.7" = -1 := by decide
example : _compare_variants "3.9" "dev" = -1 := by decide
example : _compare_variants "dev" "rc1" = -1 := by decide
example : _compare_variants "2.7" "3.9" = 1 := by decide
example : _compare_variants "3.90" "3.9" = 0 := by decide

/-! ### Order-theoretic facts about the comparator -/

theorem pow_ten_pos (n : Nat) : (0 : Rat) < (10 : Rat) ^ n := by positivity

theorem pyValEq_iff (f g : PyFloat) : pyValEq f g = true ↔ f.val = g.val := by
  unfold pyValEq PyFloat.val
  rw [beq_iff_eq, div_eq_div_iff (pow_ten_pos f.shift).ne' (pow_ten_pos g.shift).ne']
  constructor
  · intro h
    exact_mod_cast h
  · intro h
    exact_mod_cast h

theorem pyValLt_iff (f g : PyFloat) : pyValLt f g = true ↔ f.val < g.val := by
  unfold pyValLt PyFloat.val
  rw [decide_eq_true_iff, div_lt_div_iff₀ (pow_ten_pos f.shift) (pow_ten_pos g.shift)]
  constructor
  · intro h
    exact_mod_cast h
  · intro h
    exact_mod_cast h

theorem charsLt_irrefl : ∀ l : List Char, charsLt l l = false
  | [] => rfl
  | a :: as => by simp [charsLt, charsLt_irrefl as]

theorem charsLt_trans : ∀ {a b c : List Char},
    charsLt a b = true → charsLt b c = true → charsLt a c = true
  | [], [], _, hab, _ => by simp [charsLt] at hab
  | [], _ :: _, [], _, hbc => by simp [charsLt] at hbc
  | [], _ :: _, _ :: _, _, _ => rfl
  | _ :: _, [], _, hab, _ => by simp [charsLt] at hab
  | _ :: _, _ :: _, [], _, hbc => by simp [charsLt] at hbc
  | x :: xs, y :: ys, z :: zs, hab, hbc => by
      simp only [charsLt] at hab hbc ⊢
      by_cases hxy : x < y
      · by_cases hyz : y < z
        · simp [lt_trans hxy hyz]
        · by_cases heyz : y = z
          · subst heyz
            simp [hxy]
          · simp [hyz, heyz] at hbc
      · by_cases hexy : x = y
        · subst hexy
          by_cases hxz : x < z
          · simp [hxz]
          · by_cases hexz : x = z
            · subst hexz
              simp only [lt_self_iff_false, if_false, if_pos rfl] at hab hbc ⊢
              exact charsLt_trans hab hbc
            · simp [hxz, hexz] at hbc
        · simp [hxy, hexy] at hab

theorem charsLt_connect : ∀ {a b : List Char},
    a ≠ b → charsLt a b = true ∨ charsLt b a = true
  | [], [], h => absurd rfl h
  | [], _ :: _, _ => Or.inl rfl
  | _ :: _, [], _ => Or.inr rfl
  | x :: xs, y :: ys, h => by
      simp only [charsLt]
      rcases lt_trichotomy x y with hxy | hxy | hxy
      · left
        simp [hxy]
      · subst hxy
        have hxs : xs ≠ ys := by
          intro he
          exact h (by rw [he])
        rcases charsLt_connect hxs with h1 | h1
        · left
          simp [h1, lt_self_iff_false]
        · right
          simp [h1, lt_self_iff_false]
      · right
        simp [hxy]

theorem pyStrLt_irrefl (s : String) : pyStrLt s s = false := charsLt_irrefl s.data

theorem pyStrLt_trans {a b c : String} (h1 : pyStrLt a b = true) (h2 : pyStrLt b c = true) :
    pyStrLt a c = true := charsLt_trans h1 h2

theorem pyStrLt_connect {a b : String} (h : a ≠ b) :
    pyStrLt a b = true ∨ pyStrLt b a = true := by
  refine charsLt_connect (fun he => h ?_)
  exact congrArg String.mk he

theorem pyStrLt_asymm {a b : String} (h : pyStrLt a b = true) : pyStrLt b a = false := by
  cases hx : pyStrLt b a
  · rfl
  · have := pyStrLt_trans h hx
    rw [pyStrLt_irrefl] at this
    exact Bool.noConfusion this

/-- The comparator only returns `-1`, `0` or `1`. -/
theorem compare_variants_vals (a b : String) :
    _compare_variants a b = -1 ∨ _compare_variants a b = 0 ∨ _compare_variants a b = 1 := by
  unfold _compare_variants
  rcases pyFloat? a with _ | f <;> rcases pyFloat? b with _ | g <;> simp only [] <;>
    first
    | (split_ifs <;> simp)
    | simp

theorem compare_num_num {a b : String} {f g : PyFloat}
    (ha : pyFloat? a = some f) (hb : pyFloat? b = some g) :
    (_compare_variants a b < 0 ↔ g.val < f.val) ∧ (_compare_variants a b = 0 ↔ f.val = g.val) := by
  unfold _compare_variants
  rw [ha, hb]
  simp only []
  split_ifs with h1 h2
  · have hv := (pyValEq_iff f g).1 h1
    constructor
    · constructor
      · intro h
        exact absurd h (by decide)
      · intro h
        exact absurd hv (ne_of_gt h)
    · exact ⟨fun _ => hv, fun _ => rfl⟩
  · have hv := (pyValLt_iff g f).1 h2
    constructor
    · exact ⟨fun _ => hv, fun _ => by decide⟩
    · constructor
      · intro h
        exact absurd h (by decide)
      · intro h
        exact absurd ((pyValEq_iff f g).2 h) h1
  · have hne : f.val ≠ g.val := fun h => h1 ((pyValEq_iff f g).2 h)
    have hnl : ¬ g.val < f.val := fun h => h2 ((pyValLt_iff g f).2 h)
    constructor
    · constructor
      · intro h
        exact absurd h (by decide)
      · intro h
        exact absurd h hnl
    · constructor
      · intro h
        exact absurd h (by decide)
      · intro h
        exact absurd h hne

theorem compare_num_str {a b : String} {f : PyFloat}
    (ha : pyFloat? a = some f) (hb : pyFloat? b = none) :
    _compare_variants a b = -1 := by
  unfold _compare_variants
  rw [ha, hb]

theorem compare_str_num {a b : String} {g : PyFloat}
    (ha : pyFloat? a = none) (hb : pyFloat? b = some g) :
    _compare_variants a b = 1 := by
  unfold _compare_variants
  rw [ha, hb]

theorem compare_str_str {a b : String}
    (ha : pyFloat? a = none) (hb : pyFloat? b = none) :
    (_compare_variants a b < 0 ↔ a ≠ b ∧ pyStrLt a b = true) ∧
      (_compare_variants a b = 0 ↔ a = b) := by
  unfold _compare_variants
  rw [ha, hb]
  simp only []
  split_ifs with h1 h2
  · constructor
    · exact ⟨fun h => absurd h (by decide), fun h => absurd h1 h.1⟩
    · exact ⟨fun _ => h1, fun _ => rfl⟩
  · constructor
    · exact ⟨fun _ => ⟨h1, h2⟩, fun _ => by decide⟩
    · exact ⟨fun h => absurd h (by decide), fun h => absurd h h1⟩
  · constructor
    · exact ⟨fun h => absurd h (by decide), fun h => absurd h.2 h2⟩
    · exact ⟨fun h => absurd h (by decide), fun h => absurd h h1⟩

/-- Equal identifiers compare equal. -/
theorem compare_variants_self (s : String) : _compare_variants s s = 0 := by
  rcases h : pyFloat? s with _ | f
  · unfold _compare_variants
    rw [h]
    simp
  · unfold _compare_variants
    rw [h]
    simp [pyValEq_iff]

/-- The comparator is antisymmetric: swapping the operands negates the result. -/
theorem compare_variants_swap (a b : String) :
    _compare_variants a b = -(_compare_variants b a) := by
  rcases ha : pyFloat? a with _ | f <;> rcases hb : pyFloat? b with _ | g
  · rcases Decidable.em (a = b) with he | he
    · subst he
      rw [compare_variants_self]
      omega
    · have hthis := compare_str_str ha hb
      have hthat := compare_str_str hb ha
      have hvals := compare_variants_vals a b
      have hvals' := compare_variants_vals b a
      rcases pyStrLt_connect he with h1 | h1
      · have hab : _compare_variants a b < 0 := hthis.1.2 ⟨he, h1⟩
        have hba1 : ¬ _compare_variants b a < 0 := by
          intro hx
          have := (hthat.1.1 hx).2
          rw [pyStrLt_asymm h1] at this
          exact Bool.noConfusion this
        have hba2 : _compare_variants b a ≠ 0 := fun hx => (Ne.symm he) (hthat.2.1 hx)
        rcases hvals with hx | hx | hx <;> rcases hvals' with hy | hy | hy <;> omega
      · have hba : _compare_variants b a < 0 := hthat.1.2 ⟨Ne.symm he, h1⟩
        have hab1 : ¬ _compare_variants a b < 0 := by
          intro hx
          have := (hthis.1.1 hx).2
          rw [pyStrLt_asymm h1] at this
          exact Bool.noConfusion this
        have hab2 : _compare_variants a b ≠ 0 := fun hx => he (hthis.2.1 hx)
        rcases hvals with hx | hx | hx <;> rcases hvals' with hy | hy | hy <;> omega
  · have h1 := compare_str_num ha hb
    have h2 := compare_num_str hb ha
    omega
  · have h1 := compare_num_str ha hb
    have h2 := compare_str_num hb ha
    omega
  · have hthis := compare_num_num ha hb
    have hthat := compare_num_num hb ha
    have hvals := compare_variants_vals a b
    have hvals' := compare_variants_vals b a
    rcases lt_trichotomy f.val g.val with hv | hv | hv
    · have hba : _compare_variants b a < 0 := hthat.1.2 hv
      have hab1 : ¬ _compare_variants a b < 0 := fun hx => absurd (hthis.1.1 hx) (not_lt_of_gt hv)
      have hab2 : _compare_variants a b ≠ 0 := fun hx => absurd (hthis.2.1 hx) (ne_of_lt hv)
      rcases hvals with hx | hx | hx <;> rcases hvals' with hy | hy | hy <;> omega
    · have hab := hthis.2.2 hv
      have hba := hthat.2.2 hv.symm
      omega
    · have hab : _compare_variants a b < 0 := hthis.1.2 hv
      have hba1 : ¬ _compare_variants b a < 0 := fun hx => absurd (hthat.1.1 hx) (not_lt_of_gt hv)
      have hba2 : _compare_variants b a ≠ 0 := fun hx => absurd (hthat.2.1 hx) (ne_of_lt hv)
      rcases hvals with hx | hx | hx <;> rcases hvals' with hy | hy | hy <;> omega

/-- The comparator order is transitive. -/
theorem compare_variants_trans {a b c : String}
    (hab : _compare_variants a b < 0) (hbc : _compare_variants b c < 0) :
    _compare_variants a c < 0 := by
  rcases ha : pyFloat? a with _ | f <;> rcases hb : pyFloat? b with _ | g <;>
    rcases hc : pyFloat? c with _ | h
  · rcases (compare_str_str ha hb).1.1 hab with ⟨hne1, hlt1⟩
    rcases (compare_str_str hb hc).1.1 hbc with ⟨hne2, hlt2⟩
    refine (compare_str_str ha hc).1.2 ⟨?_, pyStrLt_trans hlt1 hlt2⟩
    intro he
    subst he
    have := pyStrLt_trans hlt1 hlt2
    rw [pyStrLt_irrefl] at this
    exact Bool.noConfusion this
  · rw [compare_str_num hb hc] at hbc
    omega
  · rw [compare_str_num ha hb] at hab
    omega
  · rw [compare_str_num ha hb] at hab
    omega
  · rw [compare_num_str ha hc]
    omega
  · rw [compare_str_num hb hc] at hbc
    omega
  · rw [compare_num_str ha hc]
    omega
  · have h1 := (compare_num_num ha hb).1.1 hab
    have h2 := (compare_num_num hb hc).1.1 hbc
    exact (compare_num_num ha hc).1.2 (lt_trans h2 h1)

/-- `0 < _compare_variants a b` exactly when `b` sorts strictly before `a`. -/
theorem compare_variants_pos_iff (a b : String) :
    0 < _compare_variants a b ↔ _compare_variants b a < 0 := by
  rw [compare_variants_swap a b]
  omega

/-- A zero comparison is forced by equal identifiers. -/
theorem compare_variants_eq_zero_of_eq {a b : String} (h : a = b) :
    _compare_variants a b = 0 := by
  subst h
  exact compare_variants_self a

/-! ### Package records and variants -/

/-- The `python` sub-mapping of a package mapping, as produced by
`qip.fetch_context_mapping` (`identifier`, `request`, `library-path`). -/
structure PythonMapping where
  identifier : String
  request : String
  libraryPath : String
  deriving DecidableEq, Repr

/-- The optional `system` sub-mapping of a package mapping
(`platform`, `arch`, `os: {name, major_version}`). -/
structure SystemMapping where
  platform : String
  arch : String
  osName : String
  osMajor : Nat
  deriving DecidableEq, Repr

/-- Mapping describing one installed package, as returned by
`qip.package.install`.  Requirement entries are modelled as the request
strings handed back to the orchestrator queue and to the definition
synthesizer (the spec's `InstallRequest` strings). -/
structure PackageMapping where
  identifier : String
  key : String
  version : String
  description : String
  target : String
  python : PythonMapping
  requirements : List String
  system : Option SystemMapping
  command : Option (List (String × String))
  location : Option String
  deriving DecidableEq, Repr

/-- One entry of a definition's `variants` list: a mapping holding
`identifier`, `install-location` and `requirements` (a missing
`requirements` key is modelled as the empty list, matching the
`setdefault("requirements", [])` in the source). -/
structure Variant where
  identifier : String
  install_location : String
  requirements : List String
  deriving DecidableEq, Repr

/-- Modelled from the spec: the rendering performed by the external
`wiz.utility.get_requirement` / `packaging.Requirement` round-trip in
`_process_requirements` — the requirement is namespace-qualified and tagged
with the current python identifier as an extra/qualifier. -/
def taggedRequirement (pythonIdentifier request : String) : String :=
  NAMESPACE ++ "::" ++ request ++ "[" ++ pythonIdentifier ++ "]"

/-- Shallow embedding of `qip.definition._process_requirements`: the python
version request followed by the package's requirements, each
namespace-qualified and tagged with the python identifier. -/
def _process_requirements (mapping : PackageMapping) (python_request : String) : List String :=
  python_request :: mapping.requirements.map (taggedRequirement mapping.python.identifier)

/-- `req.replace(" ", "")` from the requirement-deduplication test in
`_update_variants`. -/
def stripSpaces (s : String) : String := String.mk (s.data.filter (fun c => c ≠ ' '))

/-- The requirements appended to a matched variant: every new requirement
whose whitespace-stripped string does not already match an existing entry
(list comprehension in `_update_variants`; the comprehension is evaluated
against the pre-update requirement list). -/
def newRequirements (existing incoming : List String) : List String :=
  incoming.filter (fun req => ¬ existing.any (fun r => stripSpaces req == stripSpaces r))

/-- The in-place update of the first variant whose `identifier` matches, per
the loop in `_update_variants`: set `install-location`, append the
non-duplicated requirements, and leave the variant at its position (the
source's `del variants[index]; variants.insert(index, variant)` re-inserts
at the same index).  Returns `none` when no variant matches (the loop falls
through without returning). -/
def updateMatched (identifier path : String) (requirements : List String) :
    List Variant → Option (List Variant)
  | [] => none
  | v :: rest =>
      if v.identifier == identifier then
        some ({ v with
                  install_location := path,
                  requirements := v.requirements ++ newRequirements v.requirements requirements }
              :: rest)
      else
        (updateMatched identifier path requirements rest).map (fun l => v :: l)

/-- The `_index` accumulator of `_update_variants`: scanning with
`enumerate`, every non-matching variant that compares strictly before the
new identifier moves the insertion index past itself (`_index = index + 1`). -/
def insertIndexGo (identifier : String) : List Variant → Nat → Nat → Nat
  | [], _, acc => acc
  | v :: rest, index, acc =>
      insertIndexGo identifier rest (index + 1)
        (if v.identifier ≠ identifier ∧ 0 < _compare_variants identifier v.identifier then
          index + 1
        else acc)

/-- Insertion index for a new variant (`_index` after the scan, starting
from `0`). -/
def _insert_index (identifier : String) (variants : List Variant) : Nat :=
  insertIndexGo identifier variants 0 0

/-- Python's `list.insert(i, x)`: insert before position `i` (saturating at
the end of the list). -/
def pyInsert (i : Nat) (x : α) (l : List α) : List α := l.take i ++ x :: l.drop i

/-- Shallow embedding of `qip.definition._update_variants` as a function on
the variant list (the source mutates the list in place and returns `None`).
Either the first variant with the matching python identifier is updated in
place, or a new variant is inserted at the computed index. -/
def _update_variants (variants : List Variant) (mapping : PackageMapping) (path : String) :
    List Variant :=
  let identifier := mapping.python.identifier
  let requirements := _process_requirements mapping mapping.python.request
  match updateMatched identifier path requirements variants with
  | some updated => updated
  | none =>
      pyInsert (_insert_index identifier variants)
        { identifier := identifier, install_location := path, requirements := requirements }
        variants

/-- One reconcile call of a run: `_update_variants` applied to one package
record and install path. -/
def reconcileStep (variants : List Variant) (call : PackageMapping × String) : List Variant :=
  _update_variants variants call.1 call.2

/-- A sequence of reconcile calls starting from the empty variant list. -/
def runReconciler (calls : List (PackageMapping × String)) : List Variant :=
  calls.foldl reconcileStep []

/-- The variant list is sorted strictly descending under the `VersionKey`
order: each variant compares strictly before every later one. -/
def VariantsSorted (variants : List Variant) : Prop :=
  List.Pairwise (fun a b => _compare_variants a.identifier b.identifier < 0) variants

/-! ### Facts about the reconciler -/

theorem any_stripSpaces_self {r : String} {l : List String} (h : r ∈ l) :
    l.any (fun x => stripSpaces r == stripSpaces x) = true := by
  rw [List.any_eq_true]
  exact ⟨r, h, by simp⟩

/-- Requirements already present (after stripping spaces) are never added. -/
theorem newRequirements_eq_nil {existing incoming : List String}
    (h : ∀ req ∈ incoming, ∃ r ∈ existing, stripSpaces req = stripSpaces r) :
    newRequirements existing incoming = [] := by
  rw [newRequirements, List.filter_eq_nil_iff]
  intro req hreq
  rcases h req hreq with ⟨r, hr, he⟩
  have : existing.any (fun x => stripSpaces req == stripSpaces x) = true := by
    rw [List.any_eq_true]
    exact ⟨r, hr, by simp [he]⟩
  simp [this]

theorem newRequirements_self (reqs : List String) : newRequirements reqs reqs = [] :=
  newRequirements_eq_nil (fun req hreq => ⟨req, hreq, rfl⟩)

/-- After one update, every incoming requirement has a stripped match, so a
second update appends nothing. -/
theorem newRequirements_append_self (old reqs : List String) :
    newRequirements (old ++ newRequirements old reqs) reqs = [] := by
  refine newRequirements_eq_nil (fun req hreq => ?_)
  by_cases hold : old.any (fun r => stripSpaces req == stripSpaces r) = true
  · rcases List.any_eq_true.1 hold with ⟨r, hr, he⟩
    exact ⟨r, List.mem_append.2 (Or.inl hr), by simpa using he⟩
  · have hmem : req ∈ newRequirements old reqs := by
      rw [newRequirements, List.mem_filter]
      refine ⟨hreq, ?_⟩
      simp only [Bool.not_eq_true] at hold
      simp [hold]
    exact ⟨req, List.mem_append.2 (Or.inr hmem), rfl⟩

/-- A second matched update is the identity on the variant list. -/
theorem updateMatched_idem {id p : String} {reqs : List String} :
    ∀ {vs vs' : List Variant}, updateMatched id p reqs vs = some vs' →
      updateMatched id p reqs vs' = some vs'
  | [], _, h => by simp [updateMatched] at h
  | v :: rest, vs', h => by
      by_cases hv : v.identifier = id
      · rw [updateMatched, if_pos (by simp [hv])] at h
        injection h with h'
        subst h'
        have hreq := newRequirements_append_self v.requirements reqs
        simp [updateMatched, hv, hreq]
      · rw [updateMatched, if_neg (by simp [hv])] at h
        cases hrest : updateMatched id p reqs rest with
        | none =>
            rw [hrest] at h
            simp at h
        | some rest' =>
            rw [hrest] at h
            simp only [Option.map_some'] at h
            injection h with h'
            subst h'
            have ih := updateMatched_idem hrest
            simp [updateMatched, hv, ih]

/-- When no variant matches, every identifier differs from the new one. -/
theorem ne_of_updateMatched_none {id p : String} {reqs : List String} :
    ∀ {vs : List Variant}, updateMatched id p reqs vs = none →
      ∀ v ∈ vs, v.identifier ≠ id
  | [], _, v, hv => absurd hv (List.not_mem_nil v)
  | u :: rest, h, v, hv => by
      by_cases hu : u.identifier = id
      · rw [updateMatched, if_pos (by simp [hu])] at h
        exact Option.noConfusion h
      · rw [updateMatched, if_neg (by simp [hu])] at h
        rcases List.mem_cons.1 hv with rfl | hv'
        · exact hu
        · cases hrest : updateMatched id p reqs rest with
          | none => exact ne_of_updateMatched_none hrest v hv'
          | some _ =>
              rw [hrest] at h
              simp at h

/-- Conversely, a list whose identifiers all differ never matches. -/
theorem updateMatched_none {id p : String} {reqs : List String} :
    ∀ {vs : List Variant}, (∀ v ∈ vs, v.identifier ≠ id) →
      updateMatched id p reqs vs = none
  | [], _ => rfl
  | v :: rest, h => by
      have hv : v.identifier ≠ id := h v (List.mem_cons_self v rest)
      have ih :=
        @updateMatched_none id p reqs rest (fun u hu => h u (List.mem_cons_of_mem v hu))
      simp [updateMatched, hv, ih]

/-- Updating a freshly inserted variant leaves the list unchanged. -/
theorem updateMatched_insert {id p : String} {reqs : List String} :
    ∀ {pre : List Variant} (post : List Variant),
      (∀ v ∈ pre, v.identifier ≠ id) →
      updateMatched id p reqs (pre ++ ⟨id, p, reqs⟩ :: post) =
        some (pre ++ ⟨id, p, reqs⟩ :: post)
  | [], post, _ => by
      simp [updateMatched, newRequirements_self]
  | v :: pre', post, h => by
      have hv : v.identifier ≠ id := h v (List.mem_cons_self v pre')
      have ih :=
        @updateMatched_insert id p reqs pre' post (fun u hu => h u (List.mem_cons_of_mem v hu))
      simp [updateMatched, hv, ih]

/-- Unfolding equation for `_update_variants`. -/
theorem update_variants_eq (variants : List Variant) (mapping : PackageMapping) (path : String) :
    _update_variants variants mapping path =
      match updateMatched mapping.python.identifier path
          (_process_requirements mapping mapping.python.request) variants with
      | some updated => updated
      | none =>
          pyInsert (_insert_index mapping.python.identifier variants)
            { identifier := mapping.python.identifier,
              install_location := path,
              requirements := _process_requirements mapping mapping.python.request }
            variants := rfl

/-- **C5** — Reconciler idempotence: applying `_update_variants` a second
time with the same package record and install path is the identity; in
particular the matched variant's requirement list is unchanged and no
duplicated requirement entries appear. -/
theorem c5_update_variants_idempotent (variants : List Variant) (mapping : PackageMapping)
    (path : String) :
    _update_variants (_update_variants variants mapping path) mapping path =
      _update_variants variants mapping path := by
  cases h : updateMatched mapping.python.identifier path
      (_process_requirements mapping mapping.python.request) variants with
  | some vs' =>
      have h1 : _update_variants variants mapping path = vs' := by
        rw [update_variants_eq, h]
      rw [h1, update_variants_eq, updateMatched_idem h]
  | none =>
      have h1 : _update_variants variants mapping path =
          List.take (_insert_index mapping.python.identifier variants) variants ++
            { identifier := mapping.python.identifier,
              install_location := path,
              requirements := _process_requirements mapping mapping.python.request } ::
              List.drop (_insert_index mapping.python.identifier variants) variants := by
        rw [update_variants_eq, h]
        rfl
      have hall := ne_of_updateMatched_none h
      have hpre : ∀ v ∈ List.take (_insert_index mapping.python.identifier variants) variants,
          v.identifier ≠ mapping.python.identifier :=
        fun v hv => hall v (List.take_subset _ _ hv)
      have hins :=
        @updateMatched_insert mapping.python.identifier path
          (_process_requirements mapping mapping.python.request)
          (List.take (_insert_index mapping.python.identifier variants) variants)
          (List.drop (_insert_index mapping.python.identifier variants) variants) hpre
      rw [h1, update_variants_eq, hins]

/-! ### Ordering facts about insertion -/

theorem insertIndexGo_shift (id : String) :
    ∀ (l : List Variant) (i acc d : Nat),
      insertIndexGo id l (i + d) (acc + d) = insertIndexGo id l i acc + d
  | [], _, _, _ => rfl
  | v :: rest, i, acc, d => by
      rw [insertIndexGo, insertIndexGo]
      by_cases hc : v.identifier ≠ id ∧ 0 < _compare_variants id v.identifier
      · rw [if_pos hc, if_pos hc]
        have h2 := insertIndexGo_shift id rest (i + 1) (i + 1) d
        have e1 : i + d + 1 = i + 1 + d := by omega
        rw [e1]
        exact h2
      · rw [if_neg hc, if_neg hc]
        have h2 := insertIndexGo_shift id rest (i + 1) acc d
        have e1 : i + d + 1 = i + 1 + d := by omega
        rw [e1]
        exact h2

theorem insertIndexGo_const (id : String) :
    ∀ (l : List Variant) (i acc : Nat),
      (∀ u ∈ l, ¬(u.identifier ≠ id ∧ 0 < _compare_variants id u.identifier)) →
      insertIndexGo id l i acc = acc
  | [], _, _, _ => rfl
  | v :: rest, i, acc, h => by
      rw [insertIndexGo, if_neg (h v (List.mem_cons_self v rest))]
      exact insertIndexGo_const id rest (i + 1) acc (fun u hu => h u (List.mem_cons_of_mem v hu))

theorem pyInsert_succ_cons (n : Nat) (x a : α) (l : List α) :
    pyInsert (n + 1) x (a :: l) = a :: pyInsert n x l := by
  simp [pyInsert]

theorem mem_pyInsert {u x : α} {k : Nat} {l : List α} (h : u ∈ pyInsert k x l) :
    u = x ∨ u ∈ l := by
  simp only [pyInsert] at h
  rcases List.mem_append.1 h with h1 | h1
  · exact Or.inr (List.take_subset _ _ h1)
  · rcases List.mem_cons.1 h1 with rfl | h2
    · exact Or.inl rfl
    · exact Or.inr (List.drop_subset _ _ h2)

/-- Inserting a comparator-fresh identifier at the computed index preserves
strict descending order. -/
theorem pyInsert_sorted (id p : String) (reqs : List String) :
    ∀ (vs : List Variant), VariantsSorted vs →
      (∀ v ∈ vs, _compare_variants id v.identifier ≠ 0) →
      VariantsSorted
        (pyInsert (_insert_index id vs)
          { identifier := id, install_location := p, requirements := reqs } vs)
  | [], _, _ => by
      simp [VariantsSorted, pyInsert, _insert_index, insertIndexGo]
  | v :: rest, hs, hf => by
      have hvne : _compare_variants id v.identifier ≠ 0 := hf v (List.mem_cons_self v rest)
      have hrest_sorted : VariantsSorted rest := (List.pairwise_cons.1 hs).2
      have hhead : ∀ u ∈ rest, _compare_variants v.identifier u.identifier < 0 :=
        (List.pairwise_cons.1 hs).1
      by_cases hlt : _compare_variants id v.identifier < 0
      · have hidx : _insert_index id (v :: rest) = 0 := by
          apply insertIndexGo_const
          intro u hu
          rcases List.mem_cons.1 hu with rfl | hu'
          · intro hc
            omega
          · intro hc
            have := compare_variants_trans hlt (hhead u hu')
            omega
        rw [hidx]
        refine List.pairwise_cons.2 ⟨?_, hs⟩
        intro u hu
        rcases List.mem_cons.1 hu with rfl | hu'
        · exact hlt
        · exact compare_variants_trans hlt (hhead u hu')
      · have hgt : 0 < _compare_variants id v.identifier := by
          rcases compare_variants_vals id v.identifier with h | h | h <;> omega
        have hvdne : v.identifier ≠ id :=
          fun he => hvne (compare_variants_eq_zero_of_eq he.symm)
        have hidx : _insert_index id (v :: rest) = _insert_index id rest + 1 := by
          unfold _insert_index
          rw [insertIndexGo, if_pos ⟨hvdne, hgt⟩]
          have h2 := insertIndexGo_shift id rest 0 0 1
          simpa using h2
        rw [hidx, pyInsert_succ_cons]
        refine List.pairwise_cons.2
          ⟨?_, pyInsert_sorted id p reqs rest hrest_sorted
            (fun u hu => hf u (List.mem_cons_of_mem v hu))⟩
        intro u hu
        rcases mem_pyInsert hu with rfl | hu'
        · show _compare_variants v.identifier id < 0
          rw [compare_variants_swap]
          omega
        · exact hhead u hu'

/-- One reconcile call with a comparator-fresh python identifier preserves
strict descending order of the variant list. -/
theorem update_variants_sorted {vs : List Variant} (m : PackageMapping) (p : String)
    (hs : VariantsSorted vs)
    (hf : ∀ v ∈ vs, _compare_variants m.python.identifier v.identifier ≠ 0) :
    VariantsSorted (_update_variants vs m p) := by
  have hne : ∀ v ∈ vs, v.identifier ≠ m.python.identifier :=
    fun v hv he => hf v hv (compare_variants_eq_zero_of_eq he.symm)
  rw [update_variants_eq, updateMatched_none hne]
  exact pyInsert_sorted _ _ _ vs hs hf

/-- **C1 (amended)** — Variant-list ordering invariant: for every sequence of
reconcile calls starting from the empty list, in which each call's package
record carries a python identifier that compares as neither equal nor tied
(`_compare_variants ≠ 0`) with every identifier already present, the variant
list is sorted strictly descending under the `VersionKey` order after every
call.  (The original claim assumed only string-distinct identifiers; distinct
identifiers can still tie numerically, see the counterexample.) -/
theorem c1_sorted_of_cmp_fresh (calls : List (PackageMapping × String))
    (hfresh : ∀ (n : Nat) (hn : n < calls.length),
        ∀ v ∈ runReconciler (List.take n calls),
          _compare_variants (calls.get ⟨n, hn⟩).1.python.identifier v.identifier ≠ 0) :
    ∀ n : Nat, VariantsSorted (runReconciler (List.take n calls)) := by
  intro n
  induction n with
  | zero => simp [runReconciler, VariantsSorted]
  | succ k ih =>
      by_cases hk : k < calls.length
      · have htake : List.take (k + 1) calls = List.take k calls ++ [calls.get ⟨k, hk⟩] := by
          rw [List.take_succ]
          simp [List.getElem?_eq_getElem hk]
        rw [htake]
        show VariantsSorted (List.foldl reconcileStep [] (List.take k calls ++ [calls.get ⟨k, hk⟩]))
        rw [List.foldl_append, List.foldl_cons, List.foldl_nil]
        exact update_variants_sorted _ _ ih (hfresh k hk)
      · have htake : List.take (k + 1) calls = List.take k calls := by
          rw [List.take_of_length_le (by omega), List.take_of_length_le (by omega)]
        rw [htake]
        exact ih

/-- Concrete package record with python identifier `"3.9"`. -/
def c1CallA : PackageMapping :=
  { identifier := "Foo-0.1.0", key := "foo", version := "0.1.0", description := "Foo",
    target := "Foo/Foo-0.1.0",
    python := { identifier := "3.9", request := "python >= 3.9, < 3.10",
                libraryPath := "lib/python3.9/site-packages" },
    requirements := [], system := none, command := none, location := none }

/-- Concrete package record with python identifier `"3.90"` — a string
distinct from `"3.9"` that denotes the same numeric value. -/
def c1CallB : PackageMapping :=
  { identifier := "Foo-0.1.0", key := "foo", version := "0.1.0", description := "Foo",
    target := "Foo/Foo-0.1.0",
    python := { identifier := "3.90", request := "python >= 3.9, < 3.10",
                libraryPath := "lib/python3.90/site-packages" },
    requirements := [], system := none, command := none, location := none }

/-- Concrete package record with python identifier `"2.7"`. -/
def c1CallC : PackageMapping :=
  { identifier := "Foo-0.1.0", key := "foo", version := "0.1.0", description := "Foo",
    target := "Foo/Foo-0.1.0",
    python := { identifier := "2.7", request := "python >= 2.7, < 2.8",
                libraryPath := "lib/python2.7/site-packages" },
    requirements := [], system := none, command := none, location := none }

/-- **C1** counterexample — two reconcile calls whose python identifiers are
distinct strings (`"3.9"` then `"3.90"`), satisfying the claim's
distinctness hypothesis, yet the resulting variant list is not sorted
strictly descending: the two identifiers tie under the `VersionKey`
comparator (`_compare_variants "3.90" "3.9" = 0`). -/
theorem c1_strict_sorted_counterexample :
    (∀ v ∈ runReconciler [(c1CallA, "/p")], v.identifier ≠ c1CallB.python.identifier) ∧
      _compare_variants c1CallB.python.identifier c1CallA.python.identifier = 0 ∧
      ¬ VariantsSorted (runReconciler [(c1CallA, "/p"), (c1CallB, "/p")]) := by
  refine ⟨by decide, by decide, ?_⟩
  unfold VariantsSorted
  decide

/-- **C1** witness — a concrete two-call run with comparator-distinct
identifiers (`"3.9"`, then `"2.7"`), sorted at every point. -/
theorem c1_witness :
    VariantsSorted (runReconciler (List.take 2 [(c1CallA, "/p"), (c1CallC, "/q")])) := by
  refine c1_sorted_of_cmp_fresh [(c1CallA, "/p"), (c1CallC, "/q")] ?_ 2
  intro n hn
  have hn2 : n < 2 := by simpa using hn
  interval_cases n
  · rw [show ([(c1CallA, "/p"), (c1CallC, "/q")].get ⟨0, hn⟩) = (c1CallA, "/p") from rfl]
    decide
  · rw [show ([(c1CallA, "/p"), (c1CallC, "/q")].get ⟨1, hn⟩) = (c1CallC, "/q") from rfl]
    decide

/-- **C2** — VersionKey comparator correctness: for every pair of identifier
strings, `_compare_variants` returns exactly one of `-1`, `0`, `1`; when both
parse as decimal numbers the higher number orders first; when exactly one
parses the numeric one orders first regardless of lexical value; when neither
parses the order is lexicographic on code points. -/
theorem c2_compare_variants_correct (s1 s2 : String) :
    (_compare_variants s1 s2 = -1 ∨ _compare_variants s1 s2 = 0 ∨ _compare_variants s1 s2 = 1) ∧
    (∀ f1 f2 : PyFloat, pyFloat? s1 = some f1 → pyFloat? s2 = some f2 →
      ((f2.val < f1.val → _compare_variants s1 s2 = -1) ∧
       (f1.val = f2.val → _compare_variants s1 s2 = 0) ∧
       (f1.val < f2.val → _compare_variants s1 s2 = 1))) ∧
    (∀ f1 : PyFloat, pyFloat? s1 = some f1 → pyFloat? s2 = none →
      _compare_variants s1 s2 = -1) ∧
    (∀ f2 : PyFloat, pyFloat? s1 = none → pyFloat? s2 = some f2 →
      _compare_variants s1 s2 = 1) ∧
    (pyFloat? s1 = none → pyFloat? s2 = none →
      ((s1 = s2 → _compare_variants s1 s2 = 0) ∧
       (s1 ≠ s2 → pyStrLt s1 s2 = true → _compare_variants s1 s2 = -1) ∧
       (s1 ≠ s2 → pyStrLt s2 s1 = true → _compare_variants s1 s2 = 1))) := by
  have hvals := compare_variants_vals s1 s2
  refine ⟨hvals, ?_, ?_, ?_, ?_⟩
  · intro f1 f2 h1 h2
    have hnn := compare_num_num h1 h2
    refine ⟨?_, ?_, ?_⟩
    · intro hlt
      have := hnn.1.2 hlt
      rcases hvals with h | h | h <;> omega
    · intro he
      exact hnn.2.2 he
    · intro hlt
      have ha : ¬ _compare_variants s1 s2 < 0 :=
        fun hc => absurd (hnn.1.1 hc) (not_lt_of_gt hlt)
      have hb : _compare_variants s1 s2 ≠ 0 :=
        fun hc => absurd (hnn.2.1 hc) (ne_of_lt hlt)
      rcases hvals with h | h | h <;> omega
  · intro f1 h1 h2
    exact compare_num_str h1 h2
  · intro f2 h1 h2
    exact compare_str_num h1 h2
  · intro h1 h2
    have hss := compare_str_str h1 h2
    refine ⟨fun he => hss.2.2 he, ?_, ?_⟩
    · intro hne hlt
      have := hss.1.2 ⟨hne, hlt⟩
      rcases hvals with h | h | h <;> omega
    · intro hne hlt
      have ha : ¬ _compare_variants s1 s2 < 0 := by
        intro hc
        have := (hss.1.1 hc).2
        rw [pyStrLt_asymm hlt] at this
        exact Bool.noConfusion this
      have hb : _compare_variants s1 s2 ≠ 0 := fun hc => hne (hss.2.1 hc)
      rcases hvals with h | h | h <;> omega

/-- **C2** witness — `"3.9"` and `"2.7"` both parse, `3.9 > 2.7`, and the
comparator orders `"3.9"` first. -/
theorem c2_witness : _compare_variants "3.9" "2.7" = -1 := by
  have h := (c2_compare_variants_correct "3.9" "2.7").2.1
  have hp1 : pyFloat? "3.9" = some ⟨39, 1⟩ := by decide
  have hp2 : pyFloat? "2.7" = some ⟨27, 1⟩ := by decide
  exact (h ⟨39, 1⟩ ⟨27, 1⟩ hp1 hp2).1
    ((pyValLt_iff ⟨27, 1⟩ ⟨39, 1⟩).1 (by decide))

/-! ### The installation orchestrator (`qip/__init__.py`)

`qip.install` is a while-loop over a FIFO queue, modelled as a fuel-indexed
step function over an explicit state.  External collaborators become
parameters: `qip.package.install` is an oracle from a request string and the
current editable flag to an `InstallResult` (a package mapping or one of the
two exceptions the source documents), the destination tree is the list of
existing target directories, and the operator prompt is a stream of answers
indexed by the number of prompts made so far.  The state additionally
carries observation logs (installer invocations, failures, successful
resolutions, copy invocations and successful copies) used to state the
claims. -/

/-- Outcome of one call to the external installer `qip.package.install`:
either a package mapping, or one of the two exceptions its docstring
documents — `RuntimeError` when pip fails or the dependency report is
unreadable, and `ValueError` when the package name cannot be extracted from
pip's output (`package.py` lines 69–76).  Only `RuntimeError` is caught by
the orchestrator's handler (`except RuntimeError`, `qip/__init__.py` line
107); a `ValueError` propagates out of the loop and aborts the run. -/
inductive InstallResult where
  | ok (mapping : PackageMapping)
  | runtimeError
  | valueError
  deriving DecidableEq, Repr

/-- The four answers accepted by the overwrite confirmation prompt. -/
inductive Answer where
  | y
  | n
  | ya
  | na
  deriving DecidableEq, Repr

/-- Shallow embedding of `qip._confirm_overwrite`: `overwrite` is whether the
answer starts with `"y"`; the next policy is pinned to that boolean when the
answer contains `"a"`, and stays unset otherwise. -/
def _confirm_overwrite (answer : Answer) : Bool × Option Bool :=
  let overwrite := answer == Answer.y || answer == Answer.ya
  let overwrite_next : Option Bool :=
    if answer == Answer.ya || answer == Answer.na then some overwrite else none
  (overwrite, overwrite_next)

/-- Result of `copy_to_destination`: the success flag and next overwrite
policy returned by the source, plus the resulting destination tree and
prompt count (side effects of the call). -/
structure CopyResult where
  success : Bool
  overwrite_next : Option Bool
  fs : List String
  prompts : Nat
  deriving DecidableEq, Repr

/-- Shallow embedding of `qip.copy_to_destination`.  `fs` is the set of
directories existing in the destination tree (`os.path.isdir`), `answers`
the operator's answer stream and `prompts` the number of prompts made so
far.  `shutil.rmtree` followed by `shutil.copytree` is modelled by removing
and re-adding the target; `ensure_directory` on the parent is not observable
at this level. -/
def copy_to_destination (mapping : PackageMapping) (destination_path : String)
    (overwrite : Option Bool) (fs : List String) (answers : Nat → Answer)
    (prompts : Nat) : CopyResult :=
  let target := destination_path ++ "/" ++ mapping.target
  let overwrite_next := overwrite
  if target ∈ fs then
    let decision : Bool × Option Bool × Nat :=
      match overwrite with
      | none =>
          let r := _confirm_overwrite (answers prompts)
          (r.1, r.2, prompts + 1)
      | some b => (b, overwrite_next, prompts)
    if decision.1 then
      { success := true, overwrite_next := decision.2.1,
        fs := fs.erase target ++ [target], prompts := decision.2.2 }
    else
      { success := false, overwrite_next := decision.2.1, fs := fs, prompts := decision.2.2 }
  else
    { success := true, overwrite_next := overwrite_next,
      fs := fs ++ [target], prompts := prompts }

/-- Run-wide parameters of `qip.install`: the caller arguments and the
external collaborators. -/
structure InstallConfig where
  oracle : String → Bool → InstallResult
  destination_path : String
  answers : Nat → Answer
  editable_mode : Bool
  no_dependencies : Bool
  definitions_enabled : Bool
  overwrite : Option Bool

/-- State of the orchestrator while-loop, including observation logs.
`raised` holds the request whose install raised an exception the loop does
not catch; once set, the run is aborted and no further iteration runs. -/
structure LoopState where
  queue : List String
  installed_packages : List String
  installed_requests : List String
  overwrite : Option Bool
  editable_mode : Bool
  fs : List String
  prompts : Nat
  attempts : List (String × Bool)
  failures : List String
  resolved : List (String × PackageMapping)
  copies : List String
  copiedOk : List String
  exports : List String
  raised : Option String

/-- One iteration of the `while not queue.empty()` loop of `qip.install`:
pop a request; skip it if already recorded; otherwise hand it to the
installer (logging the attempt with the current editable flag); on
`RuntimeError` log the failure and continue; on `ValueError` (unparseable
pip output — not covered by the `except RuntimeError` handler) abort the
run; skip if the resolved identifier was already installed; otherwise
record both keys, copy to the destination under the overwrite policy, and
on success export a definition if enabled, reset the editable flag and
enqueue the package's requirements unless dependencies are disabled.  An
aborted state steps to itself: the source's uncaught exception has already
exited the loop. -/
def step (cfg : InstallConfig) (s : LoopState) : LoopState :=
  match s.raised with
  | some _ => s
  | none =>
    match s.queue with
    | [] => s
    | request :: rest =>
        let s0 := { s with queue := rest }
        if request ∈ s0.installed_requests then s0
        else
          let s1 := { s0 with attempts := s0.attempts ++ [(request, s0.editable_mode)] }
          match cfg.oracle request s1.editable_mode with
          | InstallResult.runtimeError => { s1 with failures := s1.failures ++ [request] }
          | InstallResult.valueError => { s1 with raised := some request }
          | InstallResult.ok mapping =>
              let s2 := { s1 with resolved := s1.resolved ++ [(request, mapping)] }
              if mapping.identifier ∈ s2.installed_packages then s2
              else
                let s3 := { s2 with
                  installed_packages := s2.installed_packages ++ [mapping.identifier],
                  installed_requests := s2.installed_requests ++ [request] }
                let c := copy_to_destination mapping cfg.destination_path s3.overwrite s3.fs
                  cfg.answers s3.prompts
                let s4 := { s3 with
                  overwrite := c.overwrite_next, fs := c.fs, prompts := c.prompts,
                  copies := s3.copies ++ [mapping.identifier] }
                if c.success then
                  let s5 := { s4 with
                    copiedOk := s4.copiedOk ++ [mapping.identifier],
                    exports := if cfg.definitions_enabled then s4.exports ++ [mapping.identifier]
                      else s4.exports }
                  let s6 := { s5 with editable_mode := false }
                  if cfg.no_dependencies then s6
                  else { s6 with queue := s6.queue ++ mapping.requirements }
                else s4

/-- Fuel-indexed iteration of the loop; stops when the queue is empty. -/
def runLoop (cfg : InstallConfig) : Nat → LoopState → LoopState
  | 0, s => s
  | fuel + 1, s => if s.queue = [] then s else runLoop cfg fuel (step cfg s)

/-- Initial loop state of a run: the caller's requests fill the queue, the
seen-sets are empty and the flags are the caller's arguments.  `fs0` is the
content of the destination tree when the run starts. -/
def initState (cfg : InstallConfig) (requests : List String) (fs0 : List String) : LoopState :=
  { queue := requests, installed_packages := [], installed_requests := [],
    overwrite := cfg.overwrite, editable_mode := cfg.editable_mode,
    fs := fs0, prompts := 0, attempts := [], failures := [], resolved := [],
    copies := [], copiedOk := [], exports := [], raised := none }

/-- Shallow embedding of the orchestrator `qip.install`, run for `fuel`
loop iterations. -/
def install (cfg : InstallConfig) (requests : List String) (fs0 : List String)
    (fuel : Nat) : LoopState :=
  runLoop cfg fuel (initState cfg requests fs0)

/-- A concrete package record used by the orchestrator witnesses. -/
def samplePackage : PackageMapping :=
  { identifier := "Foo-0.1.0", key := "foo", version := "0.1.0", description := "Foo",
    target := "Foo/Foo-0.1.0",
    python := { identifier := "2.7", request := "python >= 2.7, < 2.8",
                libraryPath := "lib/python2.7/site-packages" },
    requirements := [], system := none, command := none, location := none }

/-- When the destination target does not already exist, the copy is
performed silently and the policy is passed through. -/
theorem copy_no_conflict_eq (mapping : PackageMapping) (destination_path : String)
    (overwrite : Option Bool) (fs : List String) (answers : Nat → Answer) (prompts : Nat)
    (h : destination_path ++ "/" ++ mapping.target ∉ fs) :
    copy_to_destination mapping destination_path overwrite fs answers prompts =
      { success := true, overwrite_next := overwrite,
        fs := fs ++ [destination_path ++ "/" ++ mapping.target], prompts := prompts } := by
  unfold copy_to_destination
  rw [if_neg h]

/-- **C10** — No-conflict copy is unconditional and silent: whatever the
overwrite policy, when the destination target does not already exist,
`copy_to_destination` copies without prompting and returns success together
with the input policy unchanged. -/
theorem c10_no_conflict_copy (mapping : PackageMapping) (destination_path : String)
    (overwrite : Option Bool) (fs : List String) (answers : Nat → Answer) (prompts : Nat)
    (h : destination_path ++ "/" ++ mapping.target ∉ fs) :
    copy_to_destination mapping destination_path overwrite fs answers prompts =
      { success := true, overwrite_next := overwrite,
        fs := fs ++ [destination_path ++ "/" ++ mapping.target], prompts := prompts } :=
  copy_no_conflict_eq mapping destination_path overwrite fs answers prompts h

/-- **C10** witness — concrete no-conflict copy with the policy unset. -/
theorem c10_witness :
    copy_to_destination samplePackage "/out" none [] (fun _ => Answer.n) 0 =
      { success := true, overwrite_next := none, fs := ["/out/Foo/Foo-0.1.0"], prompts := 0 } :=
  (c10_no_conflict_copy samplePackage "/out" none [] (fun _ => Answer.n) 0
    (by decide)).trans (by decide)

/-- **C7** — Overwrite policy semantics at an existing destination target:
a set policy (`some b`) is applied unchanged, returned as the next policy
and never prompts (in particular, after "no to all" a later conflicting
package is skipped without prompting); an unset policy prompts once, `y`/`n`
apply once and keep the next policy unset, `ya`/`na` apply and pin the next
policy to the corresponding boolean. -/
theorem c7_overwrite_policy (mapping : PackageMapping) (destination_path : String)
    (fs : List String) (answers : Nat → Answer) (p : Nat)
    (hconflict : destination_path ++ "/" ++ mapping.target ∈ fs) :
    (∀ b : Bool,
      (copy_to_destination mapping destination_path (some b) fs answers p).success = b ∧
        (copy_to_destination mapping destination_path (some b) fs answers p).overwrite_next =
          some b ∧
        (copy_to_destination mapping destination_path (some b) fs answers p).prompts = p) ∧
    (answers p = Answer.y →
      copy_to_destination mapping destination_path none fs answers p =
        { success := true, overwrite_next := none,
          fs := fs.erase (destination_path ++ "/" ++ mapping.target) ++
            [destination_path ++ "/" ++ mapping.target],
          prompts := p + 1 }) ∧
    (answers p = Answer.n →
      copy_to_destination mapping destination_path none fs answers p =
        { success := false, overwrite_next := none, fs := fs, prompts := p + 1 }) ∧
    (answers p = Answer.ya →
      copy_to_destination mapping destination_path none fs answers p =
        { success := true, overwrite_next := some true,
          fs := fs.erase (destination_path ++ "/" ++ mapping.target) ++
            [destination_path ++ "/" ++ mapping.target],
          prompts := p + 1 }) ∧
    (answers p = Answer.na →
      copy_to_destination mapping destination_path none fs answers p =
        { success := false, overwrite_next := some false, fs := fs, prompts := p + 1 }) := by
  refine ⟨?_, ?_, ?_, ?_, ?_⟩
  · intro b
    cases b <;> simp [copy_to_destination, hconflict]
  · intro ha
    simp [copy_to_destination, hconflict, ha, _confirm_overwrite]
  · intro ha
    simp [copy_to_destination, hconflict, ha, _confirm_overwrite]
  · intro ha
    simp [copy_to_destination, hconflict, ha, _confirm_overwrite]
  · intro ha
    simp [copy_to_destination, hconflict, ha, _confirm_overwrite]

/-- **C7** witness — with the policy pinned to `some false` by an earlier
"no to all", a concrete conflicting package is skipped without prompting. -/
theorem c7_witness :
    (copy_to_destination samplePackage "/out" (some false) ["/out/Foo/Foo-0.1.0"]
        (fun _ => Answer.n) 0).success = false ∧
      (copy_to_destination samplePackage "/out" (some false) ["/out/Foo/Foo-0.1.0"]
        (fun _ => Answer.n) 0).prompts = 0 := by
  have h := (c7_overwrite_policy samplePackage "/out" ["/out/Foo/Foo-0.1.0"]
    (fun _ => Answer.n) 0 (by decide)).1 false
  exact ⟨h.1, h.2.2⟩

/-! ### Package-identity deduplication (C3) -/

theorem nodup_concat {α : Type} [DecidableEq α] {l : List α} {a : α}
    (h : l.Nodup) (ha : a ∉ l) : (l ++ [a]).Nodup := by
  rw [List.nodup_append]
  refine ⟨h, List.nodup_singleton a, ?_⟩
  intro x hx hxa
  rw [List.mem_singleton] at hxa
  subst hxa
  exact ha hx

/-- Invariant tying the copy log to the seen-identifier set: the identifiers
handed to `copy_to_destination` are pairwise distinct, every successful
resolution's identifier has been handed to `copy_to_destination`, and the
seen-identifier set is exactly the set of copied identifiers. -/
def CopyInv (s : LoopState) : Prop :=
  s.copies.Nodup ∧ (∀ p ∈ s.resolved, p.2.identifier ∈ s.copies) ∧
    (∀ i : String, i ∈ s.installed_packages ↔ i ∈ s.copies)

theorem copyInv_step (cfg : InstallConfig) {s : LoopState} (h : CopyInv s) :
    CopyInv (step cfg s) := by
  obtain ⟨q, ip, ir, ow, em, fsl, pr, att, fl, rs, cp, ck, ex, rz⟩ := s
  obtain ⟨h1, h2, h3⟩ := h
  simp only [CopyInv] at h1 h2 h3 ⊢
  cases rz with
  | some x => exact ⟨h1, h2, h3⟩
  | none =>
  cases q with
  | nil => exact ⟨h1, h2, h3⟩
  | cons r rest =>
      unfold step
      simp only []
      by_cases hreq : r ∈ ir
      · rw [if_pos hreq]
        exact ⟨h1, h2, h3⟩
      · rw [if_neg hreq]
        cases ho : cfg.oracle r em with
        | runtimeError => exact ⟨h1, h2, h3⟩
        | valueError => exact ⟨h1, h2, h3⟩
        | ok mapping =>
            simp only []
            by_cases hid : mapping.identifier ∈ ip
            · rw [if_pos hid]
              refine ⟨h1, ?_, h3⟩
              intro p hp
              rcases List.mem_append.1 hp with hp | hp
              · exact h2 p hp
              · rw [List.mem_singleton] at hp
                subst hp
                exact (h3 mapping.identifier).1 hid
            · rw [if_neg hid]
              have hcp : mapping.identifier ∉ cp := fun hx => hid ((h3 _).2 hx)
              have hg1 : (cp ++ [mapping.identifier]).Nodup := nodup_concat h1 hcp
              have hg2 : ∀ p ∈ rs ++ [(r, mapping)],
                  p.2.identifier ∈ cp ++ [mapping.identifier] := by
                intro p hp
                rcases List.mem_append.1 hp with hp | hp
                · exact List.mem_append.2 (Or.inl (h2 p hp))
                · rw [List.mem_singleton] at hp
                  subst hp
                  exact List.mem_append.2 (Or.inr (List.mem_singleton.2 rfl))
              have hg3 : ∀ i : String,
                  i ∈ ip ++ [mapping.identifier] ↔ i ∈ cp ++ [mapping.identifier] := by
                intro i
                simp only [List.mem_append, List.mem_singleton]
                constructor
                · rintro (hx | hx)
                  · exact Or.inl ((h3 i).1 hx)
                  · exact Or.inr hx
                · rintro (hx | hx)
                  · exact Or.inl ((h3 i).2 hx)
                  · exact Or.inr hx
              split
              · split
                · exact ⟨hg1, hg2, hg3⟩
                · exact ⟨hg1, hg2, hg3⟩
              · exact ⟨hg1, hg2, hg3⟩

theorem copyInv_runLoop (cfg : InstallConfig) (fuel : Nat) :
    ∀ {s : LoopState}, CopyInv s → CopyInv (runLoop cfg fuel s) := by
  induction fuel with
  | zero => exact fun h => h
  | succ k ih =>
      intro s h
      rw [runLoop]
      split
      · exact h
      · exact ih (copyInv_step cfg h)

theorem copyInv_install (cfg : InstallConfig) (requests fs0 : List String) (fuel : Nat) :
    CopyInv (install cfg requests fs0 fuel) := by
  apply copyInv_runLoop
  refine ⟨List.nodup_nil, ?_, ?_⟩
  · intro p hp
    exact absurd hp (List.not_mem_nil p)
  · intro i
    exact Iff.rfl

/-- **C3** — Package-identity deduplication: in every orchestrator run, if
two distinct request strings successfully resolve to package records with
the same identifier, `copy_to_destination` is invoked exactly once for that
identifier (the later resolution is skipped before any copy occurs). -/
theorem c3_copy_once_per_identifier (cfg : InstallConfig) (requests fs0 : List String)
    (fuel : Nat) {r1 r2 : String} {m1 m2 : PackageMapping}
    (hne : r1 ≠ r2)
    (h1 : (r1, m1) ∈ (install cfg requests fs0 fuel).resolved)
    (h2 : (r2, m2) ∈ (install cfg requests fs0 fuel).resolved)
    (hid : m1.identifier = m2.identifier) :
    (install cfg requests fs0 fuel).copies.count m1.identifier = 1 := by
  have hinv := copyInv_install cfg requests fs0 fuel
  exact List.count_eq_one_of_mem hinv.1 (hinv.2.1 _ h1)

/-- Oracle for the **C3** witness: two distinct requests resolving to the
same package identifier. -/
def c3MapA : PackageMapping :=
  { identifier := "Foo-0.1.0", key := "foo", version := "0.1.0", description := "Foo",
    target := "Foo/Foo-0.1.0",
    python := { identifier := "2.7", request := "python >= 2.7, < 2.8",
                libraryPath := "lib/python2.7/site-packages" },
    requirements := [], system := none, command := none, location := none }

def c3Cfg : InstallConfig :=
  { oracle := fun r _ =>
      if r = "a" then InstallResult.ok c3MapA
      else if r = "b" then InstallResult.ok c3MapA
      else InstallResult.runtimeError,
    destination_path := "/out", answers := fun _ => Answer.n, editable_mode := false,
    no_dependencies := false, definitions_enabled := false, overwrite := some false }

/-- **C3** witness — the concrete two-request run: both `"a"` and `"b"`
resolve to `Foo-0.1.0`, and the copy log holds that identifier exactly
once. -/
theorem c3_witness : (install c3Cfg ["a", "b"] [] 2).copies.count "Foo-0.1.0" = 1 := by
  have h := @c3_copy_once_per_identifier c3Cfg ["a", "b"] [] 2 "a" "b" c3MapA c3MapA
    (by decide) (by decide) (by decide) (by decide)
  simpa [c3MapA] using h

/-! ### Request deduplication (C6) -/

/-- Number of installer invocations for request `r` in the run so far. -/
def attemptsOf (r : String) (s : LoopState) : Nat :=
  s.attempts.countP (fun a => a.1 == r)

theorem runLoop_empty (cfg : InstallConfig) (k : Nat) {s : LoopState} (h : s.queue = []) :
    runLoop cfg k s = s := by
  cases k with
  | zero => rfl
  | succ m =>
      rw [runLoop, if_pos h]

theorem runLoop_add (cfg : InstallConfig) (n k : Nat) :
    ∀ s : LoopState, runLoop cfg (n + k) s = runLoop cfg k (runLoop cfg n s) := by
  induction n with
  | zero =>
      intro s
      rw [Nat.zero_add]
      rfl
  | succ m ih =>
      intro s
      have e : m + 1 + k = (m + k) + 1 := by omega
      rw [e, runLoop]
      by_cases h : s.queue = []
      · rw [if_pos h,
          show runLoop cfg (m + 1) s = s from by rw [runLoop, if_pos h],
          runLoop_empty cfg k h]
      · rw [if_neg h, ih (step cfg s),
          show runLoop cfg (m + 1) s = runLoop cfg m (step cfg s) from by
            rw [runLoop, if_neg h]]

theorem runLoop_one (cfg : InstallConfig) {s : LoopState} (h : ¬ s.queue = []) :
    runLoop cfg 1 s = step cfg s := by
  show runLoop cfg (0 + 1) s = step cfg s
  rw [runLoop, if_neg h]
  rfl

/-- Once a request has been recorded in `installed_requests`, one loop
iteration neither re-attempts it nor forgets it. -/
theorem attempts_frozen_step (cfg : InstallConfig) {s : LoopState} {r : String}
    (h : r ∈ s.installed_requests) :
    attemptsOf r (step cfg s) = attemptsOf r s ∧ r ∈ (step cfg s).installed_requests := by
  obtain ⟨q, ip, ir, ow, em, fsl, pr, att, fl, rs, cp, ck, ex, rz⟩ := s
  simp only [] at h
  cases rz with
  | some x => exact ⟨rfl, h⟩
  | none =>
  cases q with
  | nil => exact ⟨rfl, h⟩
  | cons hd rest =>
      unfold step
      simp only []
      by_cases hreq : hd ∈ ir
      · rw [if_pos hreq]
        exact ⟨rfl, h⟩
      · rw [if_neg hreq]
        have hne : (hd == r) = false := by
          rw [beq_eq_false_iff_ne]
          intro he
          subst he
          exact hreq h
        have hcount : (att ++ [(hd, em)]).countP (fun a => a.1 == r) =
            att.countP (fun a => a.1 == r) := by
          rw [List.countP_append]
          simp [List.countP_cons, hne]
        cases ho : cfg.oracle hd em with
        | runtimeError => exact ⟨hcount, h⟩
        | valueError => exact ⟨hcount, h⟩
        | ok mapping =>
            simp only []
            by_cases hid : mapping.identifier ∈ ip
            · rw [if_pos hid]
              exact ⟨hcount, h⟩
            · rw [if_neg hid]
              have hmem : r ∈ ir ++ [hd] := List.mem_append.2 (Or.inl h)
              split
              · split
                · exact ⟨hcount, hmem⟩
                · exact ⟨hcount, hmem⟩
              · exact ⟨hcount, hmem⟩

theorem attempts_frozen_runLoop (cfg : InstallConfig) (k : Nat) :
    ∀ {s : LoopState} {r : String}, r ∈ s.installed_requests →
      attemptsOf r (runLoop cfg k s) = attemptsOf r s ∧
        r ∈ (runLoop cfg k s).installed_requests := by
  induction k with
  | zero => exact fun h => ⟨rfl, h⟩
  | succ m ih =>
      intro s r h
      rw [runLoop]
      split
      · exact ⟨rfl, h⟩
      · rcases attempts_frozen_step cfg h with ⟨h1, h2⟩
        rcases ih h2 with ⟨h3, h4⟩
        exact ⟨h3.trans h1, h4⟩

/-- **C6 (amended)** — a request string that has been successfully installed
(recorded in `installed_requests`) is never handed to the installer again:
extending the run by any number of iterations adds no attempt of it.  (As
stated the claim is false: a request whose attempt failed, or was skipped as
a duplicate package identity, is not recorded and is re-attempted when
enqueued again — see the counterexample.) -/
theorem c6_no_attempt_after_success (cfg : InstallConfig) (requests fs0 : List String)
    (n k : Nat) (r : String)
    (h : r ∈ (install cfg requests fs0 n).installed_requests) :
    attemptsOf r (install cfg requests fs0 (n + k)) =
      attemptsOf r (install cfg requests fs0 n) := by
  rw [install, runLoop_add]
  exact (attempts_frozen_runLoop cfg k h).1

/-- Configuration whose installer always fails. -/
def c6Cfg : InstallConfig :=
  { oracle := fun _ _ => InstallResult.runtimeError,
    destination_path := "/out", answers := fun _ => Answer.n,
    editable_mode := false, no_dependencies := false, definitions_enabled := false,
    overwrite := some false }

/-- **C6** counterexample — the same request string `"f"`, enqueued twice,
is handed to the external installer twice after its first attempt fails:
the failed attempt is not recorded, so the duplicate is not skipped. -/
theorem c6_reattempt_counterexample :
    (install c6Cfg ["f", "f"] [] 2).attempts = [("f", false), ("f", false)] ∧
      attemptsOf "f" (install c6Cfg ["f", "f"] [] 2) = 2 := by
  constructor
  · decide
  · decide

/-- Configuration for the **C6** witness. -/
def c6WCfg : InstallConfig :=
  { oracle := fun r _ => if r = "a" then InstallResult.ok samplePackage else InstallResult.runtimeError,
    destination_path := "/out", answers := fun _ => Answer.n, editable_mode := false,
    no_dependencies := false, definitions_enabled := false, overwrite := some false }

/-- **C6** witness — after `"a"` is successfully installed in one iteration,
a further iteration adds no attempt of `"a"`. -/
theorem c6_witness :
    attemptsOf "a" (install c6WCfg ["a"] [] (1 + 1)) =
      attemptsOf "a" (install c6WCfg ["a"] [] 1) :=
  c6_no_attempt_after_success c6WCfg ["a"] [] 1 1 "a" (by decide)

/-! ### Editable-mode scope (C8) -/

/-- Invariant: every attempt made in editable mode is of a caller-supplied
request under a caller-enabled editable flag, and while the flag is still
set no dependency has been enqueued (the queue is a suffix of the original
request list). -/
def EditInv (cfg : InstallConfig) (requests : List String) (s : LoopState) : Prop :=
  (∀ p ∈ s.attempts, p.2 = true → cfg.editable_mode = true ∧ p.1 ∈ requests) ∧
    (s.editable_mode = true → cfg.editable_mode = true ∧ s.queue.IsSuffix requests)

theorem editInv_step (cfg : InstallConfig) (requests : List String) {s : LoopState}
    (h : EditInv cfg requests s) : EditInv cfg requests (step cfg s) := by
  obtain ⟨q, ip, ir, ow, em, fsl, pr, att, fl, rs, cp, ck, ex, rz⟩ := s
  obtain ⟨h1, h2⟩ := h
  simp only [EditInv] at h1 h2 ⊢
  cases rz with
  | some x => exact ⟨h1, h2⟩
  | none =>
  cases q with
  | nil => exact ⟨h1, h2⟩
  | cons hd rest =>
      have hrest : em = true → cfg.editable_mode = true ∧ rest.IsSuffix requests := by
        intro he
        rcases h2 he with ⟨hc, hs⟩
        exact ⟨hc, (List.suffix_cons hd rest).trans hs⟩
      have hatt : ∀ p ∈ att ++ [(hd, em)], p.2 = true →
          cfg.editable_mode = true ∧ p.1 ∈ requests := by
        intro p hp hpe
        rcases List.mem_append.1 hp with hp | hp
        · exact h1 p hp hpe
        · rw [List.mem_singleton] at hp
          subst hp
          rcases h2 hpe with ⟨hc, hs⟩
          exact ⟨hc, hs.subset (List.mem_cons_self hd rest)⟩
      unfold step
      simp only []
      by_cases hreq : hd ∈ ir
      · rw [if_pos hreq]
        exact ⟨h1, hrest⟩
      · rw [if_neg hreq]
        cases ho : cfg.oracle hd em with
        | runtimeError => exact ⟨hatt, hrest⟩
        | valueError => exact ⟨hatt, hrest⟩
        | ok mapping =>
            simp only []
            by_cases hid : mapping.identifier ∈ ip
            · rw [if_pos hid]
              exact ⟨hatt, hrest⟩
            · rw [if_neg hid]
              split
              · split
                · exact ⟨hatt, by intro he; exact absurd he (by simp)⟩
                · exact ⟨hatt, by intro he; exact absurd he (by simp)⟩
              · exact ⟨hatt, hrest⟩

theorem editInv_runLoop (cfg : InstallConfig) (requests : List String) (fuel : Nat) :
    ∀ {s : LoopState}, EditInv cfg requests s → EditInv cfg requests (runLoop cfg fuel s) := by
  induction fuel with
  | zero => exact fun h => h
  | succ k ih =>
      intro s h
      rw [runLoop]
      split
      · exact h
      · exact ih (editInv_step cfg requests h)

/-- **C8 (amended)** — Editable-mode scope: every install attempt performed
in editable mode is of a caller-supplied request, and only when the caller
enabled editable mode; in particular no install triggered by a discovered
dependency request is ever performed in editable mode.  (As stated the claim
is false: the flag is reset after the first successful install, so a second
caller-supplied request is installed non-editable — see the
counterexample.) -/
theorem c8_editable_only_toplevel (cfg : InstallConfig) (requests fs0 : List String)
    (fuel : Nat) (r : String) (e : Bool)
    (h : (r, e) ∈ (install cfg requests fs0 fuel).attempts) (he : e = true) :
    cfg.editable_mode = true ∧ r ∈ requests := by
  have hinv : EditInv cfg requests (install cfg requests fs0 fuel) := by
    apply editInv_runLoop
    refine ⟨?_, ?_⟩
    · intro p hp
      exact absurd hp (List.not_mem_nil p)
    · intro he'
      exact ⟨he', List.suffix_refl requests⟩
  exact hinv.1 (r, e) h he

/-- Second concrete package (`Bar-0.2.0`) for the **C8** counterexample. -/
def c8MapB : PackageMapping :=
  { identifier := "Bar-0.2.0", key := "bar", version := "0.2.0", description := "Bar",
    target := "Bar/Bar-0.2.0",
    python := { identifier := "2.7", request := "python >= 2.7, < 2.8",
                libraryPath := "lib/python2.7/site-packages" },
    requirements := [], system := none, command := none, location := none }

/-- Configuration with editable mode enabled and two resolvable requests. -/
def c8Cfg : InstallConfig :=
  { oracle := fun r _ =>
      if r = "a" then InstallResult.ok samplePackage
      else if r = "b" then InstallResult.ok c8MapB
      else InstallResult.runtimeError,
    destination_path := "/out", answers := fun _ => Answer.n, editable_mode := true,
    no_dependencies := false, definitions_enabled := false, overwrite := some false }

/-- **C8** counterexample — with editable mode enabled and the two
caller-supplied requests `"a"` and `"b"`, the second caller-supplied request
is handed to the installer with the editable flag already reset: the claim
that every caller-supplied request is installed with the caller's
editable-mode value fails. -/
theorem c8_editable_counterexample :
    (install c8Cfg ["a", "b"] [] 2).attempts = [("a", true), ("b", false)] ∧
      ("b", true) ∉ (install c8Cfg ["a", "b"] [] 2).attempts := by
  constructor
  · decide
  · decide

/-- **C8** witness — the editable attempt of the concrete run targets the
caller-supplied request `"a"` under a caller-enabled flag. -/
theorem c8_witness : c8Cfg.editable_mode = true ∧ "a" ∈ ["a", "b"] :=
  c8_editable_only_toplevel c8Cfg ["a", "b"] [] 2 "a" true (by decide) rfl

/-! ### Partial-failure tolerance (C4) -/

/-- **C4 (amended)** — Partial-failure tolerance for the caught failure
mode: when the install step of request `A` fails with the `RuntimeError`
raised by the external installer (pip failure or unreadable dependency
report), the failure is logged and the request abandoned, and the loop
continues: a following request `B` that succeeds (here with no further
dependencies and no destination conflict) is still installed and copied,
both requests having been attempted, and the run completes with an empty
queue without raising.  (As stated, the claim also covered the
unparseable-output failure, which raises `ValueError` — not caught by
`except RuntimeError` — and aborts the run: see the counterexample.) -/
theorem c4_partial_failure (cfg : InstallConfig) (fs0 : List String) (A B : String)
    (mB : PackageMapping)
    (hA : cfg.oracle A cfg.editable_mode = InstallResult.runtimeError)
    (hB : cfg.oracle B cfg.editable_mode = InstallResult.ok mB)
    (hreq : mB.requirements = [])
    (htar : cfg.destination_path ++ "/" ++ mB.target ∉ fs0) :
    (install cfg [A, B] fs0 2).queue = [] ∧
      (install cfg [A, B] fs0 2).raised = none ∧
      (install cfg [A, B] fs0 2).failures = [A] ∧
      mB.identifier ∈ (install cfg [A, B] fs0 2).copiedOk ∧
      (install cfg [A, B] fs0 2).attempts = [(A, cfg.editable_mode), (B, cfg.editable_mode)] := by
  have hstep1 : step cfg (initState cfg [A, B] fs0) =
      { queue := [B], installed_packages := [], installed_requests := [],
        overwrite := cfg.overwrite, editable_mode := cfg.editable_mode, fs := fs0,
        prompts := 0, attempts := [(A, cfg.editable_mode)], failures := [A],
        resolved := [], copies := [], copiedOk := [], exports := [], raised := none } := by
    unfold initState step
    simp only []
    rw [if_neg (List.not_mem_nil A), hA]
    simp
  have hrun : install cfg [A, B] fs0 2 = step cfg (step cfg (initState cfg [A, B] fs0)) := by
    rw [install, show (2 : Nat) = 1 + 1 from rfl, runLoop_add cfg 1 1,
      runLoop_one cfg (s := initState cfg [A, B] fs0) (by simp [initState]),
      runLoop_one cfg (by rw [hstep1]; simp)]
  have hstep2 : step cfg (step cfg (initState cfg [A, B] fs0)) =
      { queue := [], installed_packages := [mB.identifier], installed_requests := [B],
        overwrite := cfg.overwrite, editable_mode := false,
        fs := fs0 ++ [cfg.destination_path ++ "/" ++ mB.target], prompts := 0,
        attempts := [(A, cfg.editable_mode), (B, cfg.editable_mode)], failures := [A],
        resolved := [(B, mB)], copies := [mB.identifier], copiedOk := [mB.identifier],
        exports := if cfg.definitions_enabled then [mB.identifier] else [],
        raised := none } := by
    rw [hstep1]
    unfold step
    simp only []
    rw [if_neg (List.not_mem_nil B), hB]
    simp only []
    rw [if_neg (List.not_mem_nil mB.identifier),
      copy_no_conflict_eq mB cfg.destination_path cfg.overwrite fs0 cfg.answers 0 htar]
    simp [hreq]
  rw [hrun, hstep2]
  refine ⟨rfl, rfl, rfl, ?_, rfl⟩
  simp

/-- Configuration whose installer raises the uncaught `ValueError` for
`"a"` (pip output unparseable into a package name) and succeeds for
`"b"`. -/
def c4VCfg : InstallConfig :=
  { oracle := fun r _ =>
      if r = "b" then InstallResult.ok samplePackage else InstallResult.valueError,
    destination_path := "/out", answers := fun _ => Answer.n, editable_mode := false,
    no_dependencies := false, definitions_enabled := true, overwrite := none }

/-- **C4** counterexample — a request whose pip output cannot be parsed
into a package name raises `ValueError`, which `except RuntimeError` does
not catch: the run aborts instead of continuing, the failure is not logged
to the failure log, and the following request `"b"` — which would succeed —
is never attempted, never installed, and the queue never drains. -/
theorem c4_unparseable_aborts :
    (install c4VCfg ["a", "b"] [] 2).raised = some "a" ∧
      (install c4VCfg ["a", "b"] [] 2).attempts = [("a", false)] ∧
      (install c4VCfg ["a", "b"] [] 2).failures = [] ∧
      (install c4VCfg ["a", "b"] [] 2).copiedOk = [] ∧
      (install c4VCfg ["a", "b"] [] 2).queue = ["b"] := by
  refine ⟨?_, ?_, ?_, ?_, ?_⟩ <;> decide

/-- Configuration for the **C4** witness: `"a"` fails with the caught
`RuntimeError`, `"b"` resolves to `samplePackage`. -/
def c4Cfg : InstallConfig :=
  { oracle := fun r _ =>
      if r = "b" then InstallResult.ok samplePackage else InstallResult.runtimeError,
    destination_path := "/out", answers := fun _ => Answer.n, editable_mode := false,
    no_dependencies := false, definitions_enabled := true, overwrite := none }

/-- **C4** witness — the concrete run: `"a"` fails with `RuntimeError` and
is logged, `"b"` is still installed, and the run completes without
raising. -/
theorem c4_witness :
    (install c4Cfg ["a", "b"] [] 2).queue = [] ∧
      (install c4Cfg ["a", "b"] [] 2).raised = none ∧
      (install c4Cfg ["a", "b"] [] 2).failures = ["a"] ∧
      samplePackage.identifier ∈ (install c4Cfg ["a", "b"] [] 2).copiedOk ∧
      (install c4Cfg ["a", "b"] [] 2).attempts =
        [("a", c4Cfg.editable_mode), ("b", c4Cfg.editable_mode)] :=
  c4_partial_failure c4Cfg [] "a" "b" samplePackage (by decide) (by decide) (by decide)
    (by decide)

/-! ### The definition synthesizer `qip.definition.update` (C9)

A wiz definition record is modelled with its scalar fields as options:
`none` models a field that is absent or empty (Python falsiness of the
value), which is exactly what the `if not definition.<field>` guards of the
source test. -/

/-- The processed `system` keyword produced by `_process_system_mapping`. -/
structure WizSystem where
  platform : String
  arch : String
  os : String
  deriving DecidableEq, Repr

/-- In-memory wiz definition record (the fields `update` reads or writes).
The `namespace` keyword is rendered `namespace_` (a Lean keyword). -/
structure Definition where
  description : Option String
  version : Option String
  namespace_ : Option String
  system : Option WizSystem
  command : List (String × String)
  environ : List (String × String)
  install_root : Option String
  variants : List Variant
  deriving DecidableEq, Repr

/-- Shallow embedding of `qip.definition._process_system_mapping` (the
source reads `mapping["system"]`; here the system mapping is passed
directly, the caller having checked its presence). -/
def _process_system_mapping (sys : SystemMapping) : WizSystem :=
  { platform := sys.platform, arch := sys.arch,
    os := sys.osName ++ " >= " ++ toString sys.osMajor ++ ", < " ++
      toString (sys.osMajor + 1) }

/-- Lookup in a string-keyed mapping (modelling Python `dict.get`). -/
def assocGet? (l : List (String × String)) (k : String) : Option String :=
  (l.find? (fun p => p.1 == k)).map (fun p => p.2)

/-- Point update of a string-keyed mapping (modelling `dict.__setitem__`). -/
def assocSet (l : List (String × String)) (k v : String) : List (String × String) :=
  if l.any (fun p => p.1 == k) then l.map (fun p => if p.1 == k then (k, v) else p)
  else l ++ [(k, v)]

/-- Key-wise merge of string-keyed mappings (modelling the
`Definition.update` dictionary merge of wiz). -/
def assocUpdate (base upd : List (String × String)) : List (String × String) :=
  upd.foldl (fun acc p => assocSet acc p.1 p.2) base

/-- The PYTHONPATH template installed by `update` (and `create`):
`"${INSTALL_LOCATION}:${PYTHONPATH}"` with the wiz `INSTALL_LOCATION`
symbol. -/
def pythonPathTemplate : String := "${INSTALL_LOCATION}:${PYTHONPATH}"

/-- Modelled from the spec: the external `wiz.environ.substitute`,
restricted to its single use here — the `PYTHONPATH` reference of the fixed
template is replaced by the prior captured value, so existing extra paths
are preserved rather than clobbered. -/
def substitutePythonPath (python_path : String) : String :=
  "${INSTALL_LOCATION}:" ++ python_path

/-- Python `sorted(…, key=functools.cmp_to_key(_compare_variants))`: a
stable sort under the comparator order. -/
def sortVariants (l : List Variant) : List Variant :=
  l.mergeSort (fun a b => decide (_compare_variants a.identifier b.identifier ≤ 0))

/-- Shallow embedding of `qip.definition.update`: fill `description`,
`version`, `namespace` and `system` only when currently empty/unset, merge
`command`, recompute the `PYTHONPATH` environment entry (preserving a prior
value through substitution), set `install-root` and the package path
according to editable mode, pre-merge `additional_variants` sorted, and
reconcile the package's variant through `_update_variants`. -/
def update (definition : Definition) (mapping : PackageMapping) (output_path : String)
    (editable_mode : Bool) (additional_variants : Option (List Variant)) : Definition :=
  let d1 := if definition.description.isNone then
      { definition with description := some mapping.description } else definition
  let d2 := if d1.version.isNone then { d1 with version := some mapping.version } else d1
  let d3 := if d2.namespace_.isNone then { d2 with namespace_ := some NAMESPACE } else d2
  let d4 :=
    match mapping.system with
    | some sys =>
        if d3.system.isNone then { d3 with system := some (_process_system_mapping sys) }
        else d3
    | none => d3
  let d5 :=
    match mapping.command with
    | some cmd => { d4 with command := assocUpdate d4.command cmd }
    | none => d4
  let environPythonPath :=
    match assocGet? d5.environ "PYTHONPATH" with
    | some python_path =>
        if python_path = "" then pythonPathTemplate
        else substitutePythonPath python_path
    | none => pythonPathTemplate
  let d6 := { d5 with environ := assocUpdate d5.environ [("PYTHONPATH", environPythonPath)] }
  let package_path := mapping.location.getD ""
  let step7 : Definition × String :=
    if editable_mode then (d6, package_path)
    else
      ({ d6 with install_root := some output_path },
        "${INSTALL_ROOT}" ++ "/" ++ mapping.target ++ "/" ++ mapping.python.libraryPath)
  let variants :=
    match additional_variants with
    | some av => sortVariants (step7.1.variants ++ av)
    | none => step7.1.variants
  { step7.1 with variants := _update_variants variants mapping step7.2 }

/-- **C9** — Update preserves populated scalar fields: `update` copies
`description`, `version`, `namespace` and `system` into the definition only
when the corresponding field is currently empty/unset; every such field
that is non-empty before the call keeps its value.  (When empty,
`description` and `version` are filled from the record and `namespace` from
the module constant `NAMESPACE` — the record carries no namespace field.) -/
theorem c9_update_preserves_fields (d : Definition) (mapping : PackageMapping)
    (output_path : String) (editable_mode : Bool)
    (additional_variants : Option (List Variant)) :
    (d.description.isSome →
      (update d mapping output_path editable_mode additional_variants).description =
        d.description) ∧
    (d.version.isSome →
      (update d mapping output_path editable_mode additional_variants).version = d.version) ∧
    (d.namespace_.isSome →
      (update d mapping output_path editable_mode additional_variants).namespace_ =
        d.namespace_) ∧
    (d.system.isSome →
      (update d mapping output_path editable_mode additional_variants).system = d.system) ∧
    (d.description.isNone →
      (update d mapping output_path editable_mode additional_variants).description =
        some mapping.description) ∧
    (d.version.isNone →
      (update d mapping output_path editable_mode additional_variants).version =
        some mapping.version) ∧
    (d.namespace_.isNone →
      (update d mapping output_path editable_mode additional_variants).namespace_ =
        some NAMESPACE) := by
  cases hd : d.description <;> cases hv : d.version <;> cases hn : d.namespace_ <;>
    cases hs : d.system <;> cases hsys : mapping.system <;> cases hcmd : mapping.command <;>
      cases additional_variants <;> cases editable_mode <;>
        simp [update, hd, hv, hn, hs, hsys, hcmd]

/-- A definition with every scalar field populated. -/
def c9Def : Definition :=
  { description := some "desc", version := some "1.0", namespace_ := some "other",
    system := some { platform := "linux", arch := "x86_64", os := "centos >= 7, < 8" },
    command := [], environ := [("PYTHONPATH", "/existing")], install_root := none,
    variants := [] }

/-- **C9** witness — a concrete update of a fully populated definition
keeps all four scalar fields. -/
theorem c9_witness :
    (update c9Def samplePackage "/out" false none).description = some "desc" ∧
      (update c9Def samplePackage "/out" false none).version = some "1.0" ∧
      (update c9Def samplePackage "/out" false none).namespace_ = some "other" ∧
      (update c9Def samplePackage "/out" false none).system =
        some { platform := "linux", arch := "x86_64", os := "centos >= 7, < 8" } := by
  have h := c9_update_preserves_fields c9Def samplePackage "/out" false none
  exact ⟨h.1 (by decide), h.2.1 (by decide), h.2.2.1 (by decide), h.2.2.2.1 (by decide)⟩

end Qip
